import Mathlib

/-!
Verification of the dev-server HMR core: a shallow embedding, in Lean 4, of
the client runtime (`client.ts`), the plugin ordering helpers
(`sortUserPlugins`, `getSortedPluginsByHook`) and the WebSocket server wrapper
of the repository, together with theorems about them.

Strings manipulated by the embedded code are modelled as lists of characters
(`Str`), so every operation is structurally recursive and computes inside the
kernel.  JavaScript `Map`s are modelled as association lists with
first-occurrence update (`setA`), which preserves the insertion order
semantics of `Map.prototype.set`.  Callback functions stored in the various
registries are modelled by opaque numeric identifiers: the embedding tracks
which callback is invoked with which arguments, not what the callback does.
-/

/-- Character-list model of a JavaScript string. -/
abbrev Str := List Char

/-- `isPref p s` holds when `p` is a prefix of `s`
(models `String.prototype.startsWith`). -/
def isPref : Str → Str → Bool
  | [], _ => true
  | _ :: _, [] => false
  | a :: as, b :: bs => a == b && isPref as bs

/-- `endsW s p` holds when `p` is a suffix of `s`
(models `String.prototype.endsWith`). -/
def endsW (s p : Str) : Bool :=
  isPref p.reverse s.reverse

/-- Association-list lookup (models `Map.prototype.get`). -/
def getA {κ ν : Type} [DecidableEq κ] : List (κ × ν) → κ → Option ν
  | [], _ => none
  | (k, v) :: r, key => if k = key then some v else getA r key

/-- Association-list update: replace the first binding of `k`, or append a new
binding (models `Map.prototype.set`, which keeps insertion order). -/
def setA {κ ν : Type} [DecidableEq κ] : List (κ × ν) → κ → ν → List (κ × ν)
  | [], k, v => [(k, v)]
  | (k', v') :: r, k, v =>
    if k' = k then (k, v) :: r else (k', v') :: setA r k v

/-- Association-list membership (models `Map.prototype.has`). -/
def hasA {κ ν : Type} [DecidableEq κ] (m : List (κ × ν)) (k : κ) : Bool :=
  (getA m k).isSome

theorem getA_setA_same {κ ν : Type} [DecidableEq κ]
    (m : List (κ × ν)) (k : κ) (v : ν) : getA (setA m k v) k = some v := by
  induction m with
  | nil => simp [setA, getA]
  | cons p r ih =>
    obtain ⟨k', v'⟩ := p
    by_cases h : k' = k <;> simp [setA, getA, h, ih]

theorem getA_setA_other {κ ν : Type} [DecidableEq κ]
    (m : List (κ × ν)) (k k' : κ) (v : ν) (hne : k ≠ k') :
    getA (setA m k v) k' = getA m k' := by
  induction m with
  | nil => simp [setA, getA, hne]
  | cons p r ih =>
    obtain ⟨k₀, v₀⟩ := p
    by_cases h : k₀ = k
    · subst h
      simp [setA, getA, hne]
    · simp [setA, getA, h, ih]

/-! ## Plugin ordering (`sortUserPlugins`, `getSortedPluginsByHook`) -/

/-- The two explicit ordering bands a plugin or hook can request
(`enforce: 'pre' | 'post'`, `hook.order: 'pre' | 'post'`). -/
inductive Enforce where
  | pre
  | post
deriving DecidableEq, Repr

/-- A hook value on a plugin object: either a plain function or an object
form `{ order?, handler }`.  Bodies are opaque identifiers. -/
inductive HookKind where
  | fnHook (body : Nat)
  | objHook (ord : Option Enforce) (body : Nat)
deriving DecidableEq, Repr

/-- A plugin: a name, an optional `enforce` band, and its hooks keyed by hook
name. -/
structure Plugin where
  pname : String
  enforce : Option Enforce
  hooks : List (String × HookKind)
deriving DecidableEq, Repr

/-- `plugin[hookName]` on the embedded plugin record. -/
def getHook (p : Plugin) (hookName : String) : Option HookKind :=
  getA p.hooks hookName

/-- An element of the `(Plugin | Plugin[])[]` argument of `sortUserPlugins`. -/
inductive PluginsEntry where
  | one (p : Plugin)
  | many (ps : List Plugin)

/-- `plugins.flat()`: flatten one level of nesting. -/
def flatPlugins : List PluginsEntry → List Plugin
  | [] => []
  | .one p :: r => p :: flatPlugins r
  | .many ps :: r => ps ++ flatPlugins r

/-- The `forEach` loop of `sortUserPlugins`: push each plugin onto the
`pre` / `normal` / `post` list according to its `enforce` field. -/
def sortUserPluginsGo : List Plugin → List Plugin × List Plugin × List Plugin
  | [] => ([], [], [])
  | p :: r =>
    let rest := sortUserPluginsGo r
    match p.enforce with
    | some .pre => (p :: rest.1, rest.2.1, rest.2.2)
    | some .post => (rest.1, rest.2.1, p :: rest.2.2)
    | none => (rest.1, p :: rest.2.1, rest.2.2)

/-- `sortUserPlugins(plugins)`: flatten, then partition by `enforce`, returning
`[prePlugins, normalPlugins, postPlugins]`. -/
def sortUserPlugins :
    Option (List PluginsEntry) → List Plugin × List Plugin × List Plugin
  | none => ([], [], [])
  | some ps => sortUserPluginsGo (flatPlugins ps)

/-- The loop body of `getSortedPluginsByHook`: a plugin with no `hookName`
hook is dropped; an object hook with `order: 'pre'` (resp. `'post'`) goes to
the `pre` (resp. `post`) list; everything else goes to `normal`. -/
def sortedByHookGo (hookName : String) :
    List Plugin → List Plugin × List Plugin × List Plugin
  | [] => ([], [], [])
  | p :: r =>
    let rest := sortedByHookGo hookName r
    match getHook p hookName with
    | none => rest
    | some (.objHook (some .pre) _) => (p :: rest.1, rest.2.1, rest.2.2)
    | some (.objHook (some .post) _) => (rest.1, rest.2.1, p :: rest.2.2)
    | some _ => (rest.1, p :: rest.2.1, rest.2.2)

/-- `getSortedPluginsByHook(hookName, plugins)`:
`[...pre, ...normal, ...post]`. -/
def getSortedPluginsByHook (hookName : String) (plugins : List Plugin) :
    List Plugin :=
  let s := sortedByHookGo hookName plugins
  s.1 ++ s.2.1 ++ s.2.2

/-- Band predicate: the plugin's `enforce` is `'pre'`. -/
def enforceIsPre (p : Plugin) : Bool :=
  match p.enforce with
  | some .pre => true
  | _ => false

/-- Band predicate: the plugin's `enforce` is `'post'`. -/
def enforceIsPost (p : Plugin) : Bool :=
  match p.enforce with
  | some .post => true
  | _ => false

/-- Band predicate: the plugin requests no explicit band. -/
def enforceIsNormal (p : Plugin) : Bool :=
  match p.enforce with
  | none => true
  | _ => false

/-- Band predicate for a hook: present with object form and `order: 'pre'`. -/
def hookIsPre (hookName : String) (p : Plugin) : Bool :=
  match getHook p hookName with
  | some (.objHook (some .pre) _) => true
  | _ => false

/-- Band predicate for a hook: present with object form and `order: 'post'`. -/
def hookIsPost (hookName : String) (p : Plugin) : Bool :=
  match getHook p hookName with
  | some (.objHook (some .post) _) => true
  | _ => false

/-- Band predicate for a hook: present, and in the normal band. -/
def hookIsNormal (hookName : String) (p : Plugin) : Bool :=
  match getHook p hookName with
  | none => false
  | some (.objHook (some .pre) _) => false
  | some (.objHook (some .post) _) => false
  | some _ => true

theorem sortUserPluginsGo_eq (l : List Plugin) :
    sortUserPluginsGo l =
      (l.filter enforceIsPre, l.filter enforceIsNormal,
        l.filter enforceIsPost) := by
  induction l with
  | nil => rfl
  | cons p r ih =>
    match hp : p.enforce with
    | some .pre =>
      simp [sortUserPluginsGo, ih, List.filter, enforceIsPre, enforceIsNormal,
        enforceIsPost, hp]
    | some .post =>
      simp [sortUserPluginsGo, ih, List.filter, enforceIsPre, enforceIsNormal,
        enforceIsPost, hp]
    | none =>
      simp [sortUserPluginsGo, ih, List.filter, enforceIsPre, enforceIsNormal,
        enforceIsPost, hp]

theorem sortedByHookGo_eq (hookName : String) (l : List Plugin) :
    sortedByHookGo hookName l =
      (l.filter (hookIsPre hookName), l.filter (hookIsNormal hookName),
        l.filter (hookIsPost hookName)) := by
  induction l with
  | nil => rfl
  | cons p r ih =>
    match hp : getHook p hookName with
    | none =>
      simp [sortedByHookGo, ih, List.filter, hookIsPre, hookIsNormal,
        hookIsPost, hp]
    | some (.objHook (some .pre) b) =>
      simp [sortedByHookGo, ih, List.filter, hookIsPre, hookIsNormal,
        hookIsPost, hp]
    | some (.objHook (some .post) b) =>
      simp [sortedByHookGo, ih, List.filter, hookIsPre, hookIsNormal,
        hookIsPost, hp]
    | some (.objHook none b) =>
      simp [sortedByHookGo, ih, List.filter, hookIsPre, hookIsNormal,
        hookIsPost, hp]
    | some (.fnHook b) =>
      simp [sortedByHookGo, ih, List.filter, hookIsPre, hookIsNormal,
        hookIsPost, hp]

/-- C4: for every plugin list and every hook name, plugins are consulted in
the order (pre band) ++ (normal band) ++ (post band), and inside each band
they keep the relative order of the input list: `sortUserPlugins` is the
stable partition of the flattened input by `enforce`, and
`getSortedPluginsByHook` is the concatenation of the three stable
`List.filter` partitions of the input by the hook's band. -/
theorem C4_plugin_order (hookName : String) (entries : List PluginsEntry)
    (plugins : List Plugin) :
    sortUserPlugins (some entries) =
      ((flatPlugins entries).filter enforceIsPre,
        (flatPlugins entries).filter enforceIsNormal,
        (flatPlugins entries).filter enforceIsPost) ∧
    getSortedPluginsByHook hookName plugins =
      plugins.filter (hookIsPre hookName) ++
        plugins.filter (hookIsNormal hookName) ++
        plugins.filter (hookIsPost hookName) := by
  constructor
  · simp [sortUserPlugins, sortUserPluginsGo_eq]
  · simp [getSortedPluginsByHook, sortedByHookGo_eq]

/-! ## WebSocket server wrapper (`createWebSocketServer`) -/

/-- Wire payloads of the HMR protocol (`HMRPayload`).  The parts of a payload
the server logic never inspects are collapsed into opaque identifiers. -/
inductive Payload where
  | connected
  | update (updatesId : Nat)
  | fullReload (path : Option Str)
  | pruneP (pathsId : Nat)
  | errorP (err : Nat)
  | customP (event : String) (data : Nat)
  | ping
deriving DecidableEq, Repr

/-- `payload.type === 'error'`. -/
def isErrorPayload : Payload → Bool
  | .errorP _ => true
  | _ => false

/-- A connected client socket: identifier, `readyState` (1 = OPEN) and the
ordered list of payloads the server has sent on it. -/
structure WSClient where
  cid : Nat
  readyState : Nat
  inbox : List Payload
deriving DecidableEq, Repr

/-- The server-side state of the WebSocket wrapper: the set of accepted
sockets (`wss.clients`, in accept order) and the `bufferedError` slot. -/
structure WSServer where
  clients : List WSClient
  bufferedError : Option Payload
deriving DecidableEq, Repr

/-- The `send(...)` method of the wrapper, applied to an already-assembled
payload: an `error` payload with no accepted client is stashed in
`bufferedError`; otherwise the serialized payload goes to every client whose
`readyState` is 1. -/
def wsSend (st : WSServer) (payload : Payload) : WSServer :=
  if isErrorPayload payload && st.clients.isEmpty then
    { st with bufferedError := some payload }
  else
    { st with
      clients := st.clients.map fun c =>
        if c.readyState == 1 then { c with inbox := c.inbox ++ [payload] }
        else c }

/-- The `wss.on('connection')` handler: the new socket is sent
`{type:'connected'}` first, then the buffered error if one is pending, and
the buffer is cleared. -/
def wsConnect (st : WSServer) (newId : Nat) : WSServer :=
  let sock : WSClient := { cid := newId, readyState := 1, inbox := [.connected] }
  match st.bufferedError with
  | some e =>
    { clients := st.clients ++ [{ sock with inbox := sock.inbox ++ [e] }],
      bufferedError := none }
  | none =>
    { clients := st.clients ++ [sock], bufferedError := st.bufferedError }

/-- C5: sending an `error` payload while no client is connected stores it in
the buffer rather than dropping it, and the first client that subsequently
connects receives it (right after `connected`), after which the buffer is
empty. -/
theorem C5_buffered_error (st : WSServer) (err newId : Nat)
    (hempty : st.clients = []) :
    (wsSend st (.errorP err)).bufferedError = some (.errorP err) ∧
    (wsConnect (wsSend st (.errorP err)) newId).clients =
      [{ cid := newId, readyState := 1,
         inbox := [.connected, .errorP err] }] ∧
    (wsConnect (wsSend st (.errorP err)) newId).bufferedError = none := by
  refine ⟨?_, ?_, ?_⟩ <;>
    simp [wsSend, wsConnect, isErrorPayload, hempty]

/-- Closed witness for `C5_buffered_error` at the empty server state. -/
theorem C5_buffered_error_witness :
    (⟨[], none⟩ : WSServer).clients = [] ∧
    (wsSend ⟨[], none⟩ (.errorP 7)).bufferedError = some (.errorP 7) ∧
    (wsConnect (wsSend ⟨[], none⟩ (.errorP 7)) 0).clients =
      [{ cid := 0, readyState := 1, inbox := [.connected, .errorP 7] }] ∧
    (wsConnect (wsSend ⟨[], none⟩ (.errorP 7)) 0).bufferedError = none := by
  have h := C5_buffered_error ⟨[], none⟩ 7 0 rfl
  exact ⟨rfl, h.1, h.2.1, h.2.2⟩

/-- C6: every connection the server accepts is immediately sent
`{type:'connected'}` before any other payload: after `wsConnect`, the newly
appended socket's first inbox entry is `connected`. -/
theorem C6_connected_first (st : WSServer) (newId : Nat) :
    ∃ c : WSClient,
      (wsConnect st newId).clients.getLast? = some c ∧
      c.cid = newId ∧
      c.inbox.head? = some .connected := by
  match hb : st.bufferedError with
  | some e =>
    refine ⟨{ cid := newId, readyState := 1, inbox := [.connected, e] }, ?_, rfl, rfl⟩
    simp [wsConnect, hb]
  | none =>
    refine ⟨{ cid := newId, readyState := 1, inbox := [.connected] }, ?_, rfl, rfl⟩
    simp [wsConnect, hb]

/-! ## Client runtime registries (`createHotContext` and the `hot` context) -/

/-- An entry pushed by `acceptDeps`: the fetchable dependency paths plus the
wrapped callback, modelled by an opaque identifier. -/
structure HotCallback where
  deps : List Str
  fn : Nat
deriving DecidableEq, Repr

/-- A `HotModule`: the owner path and its registered accept callbacks. -/
structure HotModule where
  id : Str
  callbacks : List HotCallback
deriving DecidableEq, Repr

/-- The module-level registries of the client runtime.  `dataMap` values are
opaque identifiers standing for the per-module data objects (`nextData` is
the allocator for fresh ones); dispose/prune callbacks and event listeners
are opaque identifiers as well. -/
structure ClientState where
  hotModulesMap : List (Str × HotModule)
  disposeMap : List (Str × Nat)
  pruneMap : List (Str × Nat)
  dataMap : List (Str × Nat)
  customListenersMap : List (String × List Nat)
  ctxToListenersMap : List (Str × List (String × List Nat))
  nextData : Nat
deriving DecidableEq, Repr

/-- The initial client state: every registry empty. -/
def emptyClient : ClientState :=
  ⟨[], [], [], [], [], [], 0⟩

/-- One iteration of the stale-listener loop of `createHotContext`:
`customListenersMap.set(event, listeners.filter(l => !staleFns.includes(l)))`
when the event has current listeners. -/
def removeStaleStep (cls : List (String × List Nat)) (event : String)
    (staleFns : List Nat) : List (String × List Nat) :=
  match getA cls event with
  | some listeners =>
    setA cls event (listeners.filter fun l => !staleFns.contains l)
  | none => cls

/-- The whole stale-listener loop, iterating over the previous context's
listener map in order. -/
def removeStale (cls : List (String × List Nat)) :
    List (String × List Nat) → List (String × List Nat)
  | [] => cls
  | (event, staleFns) :: rest =>
    removeStale (removeStaleStep cls event staleFns) rest

/-- `createHotContext(ownerPath)`: allocate the `data` object on first sight
of `ownerPath`, reset the stale accept callbacks of the module, unregister
the previous context's custom event listeners, and install a fresh (empty)
listener map for the new context.  (The JS function also returns the `hot`
object; its methods are modelled as the separate state transformers below.) -/
def createHotContext (st : ClientState) (ownerPath : Str) : ClientState :=
  let dataMap :=
    if hasA st.dataMap ownerPath then st.dataMap
    else setA st.dataMap ownerPath st.nextData
  let nextData :=
    if hasA st.dataMap ownerPath then st.nextData else st.nextData + 1
  let hotModulesMap :=
    match getA st.hotModulesMap ownerPath with
    | some mod => setA st.hotModulesMap ownerPath { mod with callbacks := [] }
    | none => st.hotModulesMap
  let customListenersMap :=
    match getA st.ctxToListenersMap ownerPath with
    | some staleListeners => removeStale st.customListenersMap staleListeners
    | none => st.customListenersMap
  let ctxToListenersMap := setA st.ctxToListenersMap ownerPath []
  { st with
    dataMap := dataMap
    nextData := nextData
    hotModulesMap := hotModulesMap
    customListenersMap := customListenersMap
    ctxToListenersMap := ctxToListenersMap }

/-- `acceptDeps(deps, callback)`: fetch (or create) the owner's `HotModule`
and push `{deps, fn}` onto its callback list. -/
def acceptDeps (st : ClientState) (ownerPath : Str) (deps : List Str)
    (fnId : Nat) : ClientState :=
  let mod :=
    (getA st.hotModulesMap ownerPath).getD { id := ownerPath, callbacks := [] }
  { st with
    hotModulesMap :=
      setA st.hotModulesMap ownerPath
        { mod with callbacks := mod.callbacks ++ [{ deps := deps, fn := fnId }] } }

/-- A JavaScript value as discriminated by `hot.accept`: what matters is its
truthiness, `typeof`, and `Array.isArray`. -/
inductive JSVal where
  | undef
  | nullV
  | boolV (b : Bool)
  | numV (n : Int)
  | strV (s : Str)
  | funcV (f : Nat)
  | arrV (elems : List Str)
  | objV (o : Nat)
deriving DecidableEq, Repr

/-- JavaScript truthiness. -/
def truthy : JSVal → Bool
  | .undef => false
  | .nullV => false
  | .boolV b => b
  | .numV n => n != 0
  | .strV s => !s.isEmpty
  | .funcV _ => true
  | .arrV _ => true
  | .objV _ => true

/-- `typeof v === 'function'`. -/
def isFuncV : JSVal → Bool
  | .funcV _ => true
  | _ => false

/-- `typeof v === 'string'`. -/
def isStrV : JSVal → Bool
  | .strV _ => true
  | _ => false

/-- `Array.isArray(v)`. -/
def isArrV : JSVal → Bool
  | .arrV _ => true
  | _ => false

/-- `hot.accept(deps?, callback?)`: a function or falsy first argument
registers a self-accept on `[ownerPath]`; a string registers `[deps]`; an
array registers it as-is; anything else throws
`Error('invalid hot.accept() usage.')`.  The wrapper closure each branch
builds around the user callback is modelled by the opaque identifier `cb`. -/
def hotAccept (st : ClientState) (ownerPath : Str) (deps : JSVal) (cb : Nat) :
    Except String ClientState :=
  if isFuncV deps || !truthy deps then
    .ok (acceptDeps st ownerPath [ownerPath] cb)
  else
    match deps with
    | .strV s => .ok (acceptDeps st ownerPath [s] cb)
    | .arrV ds => .ok (acceptDeps st ownerPath ds cb)
    | _ => .error "invalid hot.accept() usage."

/-- `hot.dispose(cb)`: `disposeMap.set(ownerPath, cb)`. -/
def hotDispose (st : ClientState) (ownerPath : Str) (cb : Nat) : ClientState :=
  { st with disposeMap := setA st.disposeMap ownerPath cb }

/-- `hot.prune(cb)`: `pruneMap.set(ownerPath, cb)`. -/
def hotPrune (st : ClientState) (ownerPath : Str) (cb : Nat) : ClientState :=
  { st with pruneMap := setA st.pruneMap ownerPath cb }

/-- `hot.on(event, cb)` of the context currently installed for `ownerPath`:
append `cb` to both `customListenersMap[event]` and the context's own
listener map (stored in `ctxToListenersMap[ownerPath]`). -/
def hotOn (st : ClientState) (ownerPath : Str) (event : String) (cb : Nat) :
    ClientState :=
  let addToMap (m : List (String × List Nat)) : List (String × List Nat) :=
    setA m event (((getA m event).getD []) ++ [cb])
  { st with
    customListenersMap := addToMap st.customListenersMap
    ctxToListenersMap :=
      setA st.ctxToListenersMap ownerPath
        (addToMap ((getA st.ctxToListenersMap ownerPath).getD [])) }

/-- C10: `hot.accept(deps, callback)` throws
`Error('invalid hot.accept() usage.')` exactly when `deps` is truthy and is
neither a function, nor a string, nor an array; in every other case the call
registers an accept callback (returns an updated state) without throwing. -/
theorem C10_accept_throws (st : ClientState) (ownerPath : Str) (v : JSVal)
    (cb : Nat) :
    hotAccept st ownerPath v cb = .error "invalid hot.accept() usage." ↔
      (truthy v = true ∧ isFuncV v = false ∧ isStrV v = false ∧
        isArrV v = false) := by
  cases v with
  | numV n =>
    by_cases h : n = 0 <;> simp [hotAccept, truthy, isFuncV, isStrV, isArrV, h]
  | boolV b => cases b <;> simp [hotAccept, truthy, isFuncV, isStrV, isArrV]
  | strV s =>
    by_cases h : s.isEmpty <;>
      simp [hotAccept, truthy, isFuncV, isStrV, isArrV, h]
  | _ => simp [hotAccept, truthy, isFuncV, isStrV, isArrV]

theorem removeStaleStep_not_mem (cls : List (String × List Nat))
    (event : String) (staleFns : List Nat) (l : Nat) (hl : l ∈ staleFns) :
    l ∉ (getA (removeStaleStep cls event staleFns) event).getD [] := by
  unfold removeStaleStep
  match h : getA cls event with
  | none => simp [h]
  | some listeners =>
    simp only [getA_setA_same, Option.getD_some]
    intro hmem
    have := List.of_mem_filter hmem
    simp [hl] at this

theorem removeStaleStep_shrink (cls : List (String × List Nat))
    (event event' : String) (staleFns : List Nat) (l : Nat)
    (hnot : l ∉ (getA cls event).getD []) :
    l ∉ (getA (removeStaleStep cls event' staleFns) event).getD [] := by
  unfold removeStaleStep
  match h : getA cls event' with
  | none => simpa [h] using hnot
  | some listeners =>
    by_cases he : event' = event
    · subst he
      simp only [getA_setA_same, Option.getD_some]
      intro hmem
      exact hnot (by simpa [h] using List.mem_of_mem_filter hmem)
    · simpa [getA_setA_other _ _ _ _ he] using hnot

theorem removeStale_shrink (stale : List (String × List Nat))
    (cls : List (String × List Nat)) (event : String) (l : Nat)
    (hnot : l ∉ (getA cls event).getD []) :
    l ∉ (getA (removeStale cls stale) event).getD [] := by
  induction stale generalizing cls with
  | nil => simpa [removeStale] using hnot
  | cons p rest ih =>
    obtain ⟨ev', fns'⟩ := p
    exact ih _ (removeStaleStep_shrink cls event ev' fns' l hnot)

theorem removeStale_clears (stale : List (String × List Nat))
    (cls : List (String × List Nat)) (event : String) (staleFns : List Nat)
    (l : Nat) (hmem : (event, staleFns) ∈ stale) (hl : l ∈ staleFns) :
    l ∉ (getA (removeStale cls stale) event).getD [] := by
  induction stale generalizing cls with
  | nil => cases hmem
  | cons p rest ih =>
    obtain ⟨ev', fns'⟩ := p
    rcases List.mem_cons.mp hmem with heq | htail
    · obtain ⟨he, hf⟩ := Prod.mk.injEq .. ▸ heq
      subst he
      subst hf
      exact removeStale_shrink rest _ event l
        (removeStaleStep_not_mem cls event staleFns l hl)
    · exact ih _ htail

/-- C3 counterexample: a dispose callback registered through a module's
previous context is NOT cleared when `createHotContext` is called again for
the same owner path — after re-creating the context for `/a`, the dispose
callback (id 7) is still registered, although the claim says every
registration made through the previous context is cleared. -/
theorem C3_dispose_survives_recreation :
    getA (createHotContext
        (hotDispose (createHotContext emptyClient ['/', 'a']) ['/', 'a'] 7)
        ['/', 'a']).disposeMap ['/', 'a'] = some 7 := by
  decide

/-- C3 (amended): re-creating the context for `ownerPath` clears the
module's accept callbacks and unregisters every custom event listener
recorded in the previous context's listener map, but leaves the dispose and
prune registrations untouched. -/
theorem C3_recreation_clears (st : ClientState) (ownerPath : Str) :
    (∀ mod, getA (createHotContext st ownerPath).hotModulesMap ownerPath =
        some mod → mod.callbacks = []) ∧
    (createHotContext st ownerPath).disposeMap = st.disposeMap ∧
    (createHotContext st ownerPath).pruneMap = st.pruneMap ∧
    (∀ staleListeners event staleFns l,
      getA st.ctxToListenersMap ownerPath = some staleListeners →
      (event, staleFns) ∈ staleListeners → l ∈ staleFns →
      l ∉ (getA (createHotContext st ownerPath).customListenersMap
            event).getD []) := by
  refine ⟨?_, ?_, ?_, ?_⟩
  · intro mod hmod
    match h : getA st.hotModulesMap ownerPath with
    | none => simp [createHotContext, h] at hmod
    | some old =>
      simp [createHotContext, h, getA_setA_same] at hmod
      subst hmod
      rfl
  · unfold createHotContext
    rfl
  · unfold createHotContext
    rfl
  · intro staleListeners event staleFns l hctx hmem hl
    unfold createHotContext
    simp only [hctx]
    exact removeStale_clears staleListeners _ event staleFns l hmem hl

/-- Closed witness for `C3_recreation_clears`: after registering an accept
callback and a listener through the context of `/a` and re-creating that
context, the accept-callback list is empty again and the listener is gone. -/
theorem C3_recreation_clears_witness :
    (∀ mod,
      getA (createHotContext
          (hotOn (createHotContext emptyClient ['/', 'a']) ['/', 'a'] "ev" 3)
          ['/', 'a']).hotModulesMap ['/', 'a'] = some mod →
        mod.callbacks = []) ∧
    (3 : Nat) ∉
      (getA (createHotContext
          (hotOn (createHotContext emptyClient ['/', 'a']) ['/', 'a'] "ev" 3)
          ['/', 'a']).customListenersMap "ev").getD [] := by
  have h := C3_recreation_clears
    (hotOn (createHotContext emptyClient ['/', 'a']) ['/', 'a'] "ev" 3)
    ['/', 'a']
  exact ⟨h.1, h.2.2.2 [("ev", [3])] "ev" [3] 3 (by decide) (by decide)
    (by decide)⟩

/-- C9: the `hot.data` object for `ownerPath` is allocated (from the fresh
allocator) by the first `createHotContext(ownerPath)` call, and any later
call for the same path leaves the very same object in place. -/
theorem C9_data_persists (st : ClientState) (ownerPath : Str) :
    (getA st.dataMap ownerPath = none →
      getA (createHotContext st ownerPath).dataMap ownerPath =
        some st.nextData) ∧
    (∀ d, getA st.dataMap ownerPath = some d →
      getA (createHotContext st ownerPath).dataMap ownerPath = some d) := by
  constructor
  · intro hnone
    unfold createHotContext
    simp [hasA, hnone, getA_setA_same]
  · intro d hsome
    unfold createHotContext
    simp [hasA, hsome]

/-- Closed witness for `C9_data_persists`: the first context creation for
`/a` allocates data object `0`, and a second creation still exposes object
`0`. -/
theorem C9_data_persists_witness :
    getA (createHotContext (createHotContext emptyClient ['/', 'a'])
        ['/', 'a']).dataMap ['/', 'a'] = some 0 :=
  (C9_data_persists (createHotContext emptyClient ['/', 'a']) ['/', 'a']).2 0
    (by decide)

/-! ## Applying a `js-update` (`fetchUpdate`) -/

/-- The discriminant of an `Update` payload entry. -/
inductive UpdateType where
  | jsUpdate
  | cssUpdate
deriving DecidableEq, Repr

/-- An `Update` entry of an `{type:'update'}` payload. -/
structure Update where
  utype : UpdateType
  path : Str
  acceptedPath : Str
  timestamp : Nat
  explicitImportRequired : Bool
deriving DecidableEq, Repr

/-- `String.prototype.split(sep)` for a one-character separator. -/
def splitAll (c : Char) : Str → List Str
  | [] => [[]]
  | a :: as =>
    match splitAll c as with
    | [] => [[]]
    | r :: rs => if a == c then [] :: r :: rs else (a :: r) :: rs

/-- The URL handed to the dynamic `import()` in `fetchUpdate`:
`base + path.slice(1) +
 ?${explicitImportRequired ? 'import&' : ''}t=${timestamp}${query ? '&'+query : ''}`
where `[path, query] = dep.split('?')`. -/
def importUrl (base dep : Str) (explicitImportRequired : Bool)
    (timestamp : Nat) : Str :=
  let parts := splitAll '?' dep
  let path := parts.headD []
  let query := parts[1]?
  base ++ path.drop 1 ++
    '?' :: ((if explicitImportRequired then "import&".toList else []) ++
      "t=".toList ++ (Nat.repr timestamp).toList ++
      (match query with
       | some q => if q.isEmpty then [] else '&' :: q
       | none => []))

/-- Observable client-side events of applying one `js-update`: awaiting the
registered dispose callback (with the module's data object), performing the
dynamic import, and invoking an accept callback with the array
`deps.map(dep => moduleMap.get(dep))` of module namespaces.  A module
namespace is identified by the URL it was imported from. -/
inductive CEvent where
  | disposeCall (path : Str) (dataId : Option Nat)
  | importCall (url : Str)
  | callbackCall (fn : Nat) (args : List (Option Str))
deriving DecidableEq, Repr

/-- Trace semantics of `fetchUpdate`, as the ordered list of events it
produces: the await-phase events (dispose, then dynamic import) followed by
the events of the thunk it returns (which `queueUpdate` runs once the whole
batch has been awaited).  The dynamic import is modelled as always
succeeding; its namespace is the imported URL. -/
def fetchUpdate (st : ClientState) (base : Str) (u : Update) : List CEvent :=
  match getA st.hotModulesMap u.path with
  | none => []
  | some mod =>
    let isSelfUpdate := u.path == u.acceptedPath
    let qualifiedCallbacks :=
      mod.callbacks.filter fun cb => cb.deps.contains u.acceptedPath
    let dep := u.acceptedPath
    let fetched := isSelfUpdate || !qualifiedCallbacks.isEmpty
    let url := importUrl base dep u.explicitImportRequired u.timestamp
    let awaitPhase :=
      if fetched then
        (match getA st.disposeMap dep with
         | some _ => [CEvent.disposeCall dep (getA st.dataMap dep)]
         | none => []) ++ [CEvent.importCall url]
      else []
    let moduleMap : List (Str × Str) := if fetched then [(dep, url)] else []
    awaitPhase ++
      qualifiedCallbacks.map fun cb =>
        CEvent.callbackCall cb.fn (cb.deps.map fun d => getA moduleMap d)

theorem getA_singleton {κ ν : Type} [DecidableEq κ] (k d : κ) (v : ν) :
    getA [(k, v)] d = if d = k then some v else none := by
  by_cases h : d = k
  · subst h
    simp [getA]
  · simp [getA, h, Ne.symm h]

/-- C1: for every `js-update` whose `path` has a registered hot module, if it
is a self-update or some registered accept callback lists `acceptedPath` in
its deps, the trace of applying it is: first the dispose callback registered
for `acceptedPath` (when there is one, awaited with the module's data
object), then the dynamic import of `acceptedPath` with a cache-busting
query containing `t=<timestamp>`, then every registered callback whose deps
include `acceptedPath`, invoked with the freshly imported module namespace
at each `acceptedPath` position of its deps array. -/
theorem C1_js_update_applies (st : ClientState) (base : Str) (u : Update)
    (mod : HotModule)
    (hjs : u.utype = .jsUpdate)
    (hmod : getA st.hotModulesMap u.path = some mod)
    (hacc : u.path = u.acceptedPath ∨
      ∃ cb ∈ mod.callbacks, u.acceptedPath ∈ cb.deps) :
    ∃ url pre post,
      url = pre ++ "t=".toList ++ (Nat.repr u.timestamp).toList ++ post ∧
      fetchUpdate st base u =
        (match getA st.disposeMap u.acceptedPath with
         | some _ =>
           [CEvent.disposeCall u.acceptedPath (getA st.dataMap u.acceptedPath)]
         | none => []) ++
        [CEvent.importCall url] ++
        (mod.callbacks.filter fun cb => cb.deps.contains u.acceptedPath).map
          (fun cb => CEvent.callbackCall cb.fn
            (cb.deps.map fun d => if d = u.acceptedPath then some url else none)) := by
  have hfetched : ((u.path == u.acceptedPath) ||
      !(mod.callbacks.filter fun cb => cb.deps.contains u.acceptedPath).isEmpty)
        = true := by
    rcases hacc with h | ⟨cb, hcb, hd⟩
    · simp [h]
    · have hmem : cb ∈ mod.callbacks.filter
          fun cb => cb.deps.contains u.acceptedPath :=
        List.mem_filter.mpr ⟨hcb, by simpa using hd⟩
      have hne : (mod.callbacks.filter
          fun cb => cb.deps.contains u.acceptedPath) ≠ [] :=
        List.ne_nil_of_mem hmem
      simp [hne]
      exact Or.inr ⟨cb, hcb, hd⟩
  refine ⟨importUrl base u.acceptedPath u.explicitImportRequired u.timestamp,
    base ++ ((splitAll '?' u.acceptedPath).headD []).drop 1 ++
      '?' :: (if u.explicitImportRequired then "import&".toList else []),
    (match (splitAll '?' u.acceptedPath)[1]? with
     | some q => if q.isEmpty then [] else '&' :: q
     | none => []),
    ?_, ?_⟩
  · simp [importUrl]
  · simp only [fetchUpdate, hmod, hfetched, if_true]
    congr 1
    apply List.map_congr_left
    intro cb _
    congr 1
    apply List.map_congr_left
    intro d _
    rw [getA_singleton]

/-- Closed witness for `C1_js_update_applies`: a self-accepting module `/a`
with a registered dispose callback, receiving a self-update with timestamp
42. -/
theorem C1_js_update_applies_witness :
    ∃ url pre post,
      url = pre ++ "t=".toList ++ (Nat.repr 42).toList ++ post ∧
      fetchUpdate
        { emptyClient with
          hotModulesMap :=
            [(['/', 'a'], { id := ['/', 'a'],
                            callbacks := [{ deps := [['/', 'a']], fn := 5 }] })],
          disposeMap := [(['/', 'a'], 9)],
          dataMap := [(['/', 'a'], 0)] }
        ['/']
        { utype := .jsUpdate, path := ['/', 'a'], acceptedPath := ['/', 'a'],
          timestamp := 42, explicitImportRequired := false } =
        (match getA ([(['/', 'a'], 9)] : List (Str × Nat)) ['/', 'a'] with
         | some _ =>
           [CEvent.disposeCall ['/', 'a']
             (getA ([(['/', 'a'], 0)] : List (Str × Nat)) ['/', 'a'])]
         | none => []) ++
        [CEvent.importCall url] ++
        ([({ deps := [['/', 'a']], fn := 5 } : HotCallback)].filter
            fun cb => cb.deps.contains ['/', 'a']).map
          (fun cb => CEvent.callbackCall cb.fn
            (cb.deps.map fun d => if d = ['/', 'a'] then some url else none)) :=
  C1_js_update_applies
    { emptyClient with
      hotModulesMap :=
        [(['/', 'a'], { id := ['/', 'a'],
                        callbacks := [{ deps := [['/', 'a']], fn := 5 }] })],
      disposeMap := [(['/', 'a'], 9)],
      dataMap := [(['/', 'a'], 0)] }
    ['/']
    { utype := .jsUpdate, path := ['/', 'a'], acceptedPath := ['/', 'a'],
      timestamp := 42, explicitImportRequired := false }
    { id := ['/', 'a'], callbacks := [{ deps := [['/', 'a']], fn := 5 }] }
    rfl (by decide) (Or.inl rfl)

/-! ## The `full-reload` branch of `handleMessage` -/

/-- The `case 'full-reload'` branch of `handleMessage`, as the decision
whether `location.reload()` is invoked.  `base` is `__BASE__ || '/'`,
`pagePath` is `decodeURI(location.pathname)`, `payloadPath` is
`payload.path`.  (`payload.path && payload.path.endsWith('.html')`: a missing
or empty path, or one not ending in `.html`, always reloads.) -/
def fullReloadReloads (base pagePath : Str) (payloadPath : Option Str) :
    Bool :=
  match payloadPath with
  | some p =>
    if endsW p ".html".toList then
      let payloadFull := base ++ p.drop 1
      (pagePath == payloadFull) || (p == "/index.html".toList) ||
        (endsW pagePath ['/'] && (pagePath ++ "index.html".toList == payloadFull))
    else true
  | none => true

/-- The behaviour the claim describes, stated from the spec's words: if the
payload carries a `path` and the browser is on a different page, ignore;
else reload. -/
def claimedFullReload (base pagePath : Str) (payloadPath : Option Str) :
    Bool :=
  match payloadPath with
  | some p => pagePath == base ++ p.drop 1
  | none => true

/-- C2 counterexample: a `full-reload` whose `path` is `/foo.js` while the
browser is on `/bar.html` (base `/`).  The claim says the client ignores the
payload; the code reloads, because the ignore logic only applies to paths
ending in `.html`. -/
theorem C2_ignores_only_html :
    claimedFullReload ['/'] "/bar.html".toList (some "/foo.js".toList) =
        false ∧
    fullReloadReloads ['/'] "/bar.html".toList (some "/foo.js".toList) =
        true := by
  decide

/-- C2 (amended): the client ignores a `full-reload` exactly when the payload
carries a `path` ending in `.html`, that path is not `/index.html`, the
browser's page differs from `base + path.slice(1)`, and the browser's page is
not a directory page whose `index.html` the path denotes; in every other
case it reloads. -/
theorem C2_full_reload_decision (base pagePath : Str)
    (payloadPath : Option Str) :
    fullReloadReloads base pagePath payloadPath = false ↔
      ∃ p, payloadPath = some p ∧ endsW p ".html".toList = true ∧
        pagePath ≠ base ++ p.drop 1 ∧ p ≠ "/index.html".toList ∧
        ¬(endsW pagePath ['/'] = true ∧
          pagePath ++ "index.html".toList = base ++ p.drop 1) := by
  match payloadPath with
  | none => simp [fullReloadReloads]
  | some p =>
    by_cases hh : endsW p ".html".toList
    · simp only [fullReloadReloads, hh, if_true]
      constructor
      · intro h
        simp only [Bool.or_eq_false_iff, Bool.and_eq_false_iff,
          beq_eq_false_iff_ne, ne_eq] at h
        refine ⟨p, rfl, hh, h.1.1, h.1.2, ?_⟩
        rintro ⟨h1, h2⟩
        rcases h.2 with h' | h'
        · simp [h1] at h'
        · exact h' h2
      · rintro ⟨p', hp', _, hne, hidx, hdir⟩
        obtain rfl : p' = p := by
          injection hp' with h
          exact h.symm
        simp only [Bool.or_eq_false_iff, Bool.and_eq_false_iff,
          beq_eq_false_iff_ne, ne_eq]
        refine ⟨⟨hne, hidx⟩, ?_⟩
        by_cases hdirp : endsW pagePath ['/'] = true
        · right
          intro h2
          exact hdir ⟨hdirp, h2⟩
        · left
          simpa using hdirp
    · simp [fullReloadReloads, hh]
      intro he
      exact absurd he hh

/-! ## Primary WebSocket close handling and the direct-target fallback -/

/-- What the client does when a socket's `close` event fires.
`directFallback` stands for the fallback handler that calls
`setupWebSocket(socketProtocol, directSocketHost, …)`, i.e. a reconnection
attempt against the configured `__HMR_DIRECT_TARGET__`; `pollReload` stands
for `waitForSuccessfulPing` followed by `location.reload()`. -/
inductive CloseAction where
  | ignore
  | directFallback
  | pollReload
deriving DecidableEq, Repr

/-- JavaScript truthiness of `__HMR_PORT__ : number | null`. -/
def hmrPortTruthy : Option Nat → Bool
  | none => false
  | some n => n != 0

/-- The `close` listener of the client's primary WebSocket connection: a
clean close is ignored; a close before `open` runs `onCloseWithoutOpen` when
it was supplied — and the module wires the `fallback` handler in only when
`!hmrPort` — otherwise the client polls for the server and reloads. -/
def primaryCloseAction (hmrPort : Option Nat) (wasClean isOpened : Bool) :
    CloseAction :=
  if wasClean then .ignore
  else if !isOpened && !hmrPortTruthy hmrPort then .directFallback
  else .pollReload

/-- C8 counterexample: with a configured truthy `__HMR_PORT__` (24678), a
close-without-open on the primary connection does NOT attempt the direct
host:port fallback — it goes to the poll-and-reload path — although the
claim says the fallback is attempted for every such close-without-open
event. -/
theorem C8_no_fallback_with_port :
    primaryCloseAction (some 24678) false false = .pollReload ∧
    primaryCloseAction (some 24678) false false ≠ .directFallback := by
  decide

/-- C8 (amended): on a close-without-open of the primary connection
(`wasClean = false`, `isOpened = false`), the client attempts the fallback
connection to the configured direct host:port target exactly when
`__HMR_PORT__` is falsy (absent or 0); otherwise it polls for the server and
reloads. -/
theorem C8_fallback_iff_no_port (hmrPort : Option Nat) :
    (primaryCloseAction hmrPort false false = .directFallback ↔
      (hmrPort = none ∨ hmrPort = some 0)) ∧
    (primaryCloseAction hmrPort false false = .directFallback ∨
      primaryCloseAction hmrPort false false = .pollReload) := by
  match hmrPort with
  | none => simp [primaryCloseAction, hmrPortTruthy]
  | some n =>
    by_cases h : n = 0 <;>
      simp [primaryCloseAction, hmrPortTruthy, h]

/-! ## `injectQuery` of the client runtime -/

/-- Everything strictly before the first occurrence of `c` (the whole string
when `c` is absent): the effect of `replace(/c.*$/, '')`. -/
def takeUntil (c : Char) : Str → Str
  | [] => []
  | a :: as => if a == c then [] else a :: takeUntil c as

/-- Everything from the first occurrence of `c` on (empty when `c` is
absent). -/
def dropFromC (c : Char) : Str → Str
  | [] => []
  | a :: as => if a == c then a :: as else dropFromC c as

/-- Model of `.search` and `.hash` of `new URL(url, 'http://vitejs.dev')`
for a relative `url`: the hash runs from the first `#` to the end, the
search from the first `?` of the part before the hash; a bare trailing `?`
(resp. `#`) yields an empty search (resp. hash).  The percent-encoding the
`URL` constructor may apply to special characters is not modelled. -/
def urlSearchHash (url : Str) : Str × Str :=
  let beforeHash := takeUntil '#' url
  let hashRaw := dropFromC '#' url
  let searchRaw := dropFromC '?' beforeHash
  (if searchRaw == ['?'] then [] else searchRaw,
    if hashRaw == ['#'] then [] else hashRaw)

/-- `injectQuery(url, queryToInject)` of the client runtime: urls that do not
start with `.` or `/` are returned unchanged; otherwise the injected query
goes right after the pathname, any pre-existing search is appended with `&`,
and the hash is kept at the end. -/
def injectQuery (url q : Str) : Str :=
  if !(isPref ['.'] url) && !(isPref ['/'] url) then url
  else
    let pathname := takeUntil '?' (takeUntil '#' url)
    let sh := urlSearchHash url
    pathname ++ '?' :: q ++
      (if sh.1.isEmpty then [] else '&' :: sh.1.tail) ++ sh.2

theorem takeUntil_append (c : Char) (a b : Str) (h : c ∉ a) :
    takeUntil c (a ++ b) = a ++ takeUntil c b := by
  induction a with
  | nil => simp
  | cons x xs ih =>
    simp only [List.mem_cons, not_or] at h
    have hx : ¬x = c := fun he => h.1 he.symm
    simp [takeUntil, hx, ih h.2]

theorem takeUntil_not_mem (c : Char) (a : Str) (h : c ∉ a) :
    takeUntil c a = a := by
  induction a with
  | nil => rfl
  | cons x xs ih =>
    simp only [List.mem_cons, not_or] at h
    have hx : ¬x = c := fun he => h.1 he.symm
    simp [takeUntil, hx, ih h.2]

theorem takeUntil_cons_self (c : Char) (l : Str) :
    takeUntil c (c :: l) = [] := by
  simp [takeUntil]

theorem dropFromC_append (c : Char) (a b : Str) (h : c ∉ a) :
    dropFromC c (a ++ b) = dropFromC c b := by
  induction a with
  | nil => simp
  | cons x xs ih =>
    simp only [List.mem_cons, not_or] at h
    have hx : ¬x = c := fun he => h.1 he.symm
    simp [dropFromC, hx, ih h.2]

theorem dropFromC_cons_self (c : Char) (l : Str) :
    dropFromC c (c :: l) = c :: l := by
  simp [dropFromC]

theorem dropFromC_not_mem (c : Char) (a : Str) (h : c ∉ a) :
    dropFromC c a = [] := by
  induction a with
  | nil => rfl
  | cons x xs ih =>
    simp only [List.mem_cons, not_or] at h
    have hx : ¬x = c := fun he => h.1 he.symm
    simp [dropFromC, hx, ih h.2]

/-- C7 counterexample: `injectQuery('a', 'direct')` returns `'a'` unchanged —
the query is NOT inserted — because the function skips every url that does
not start with `.` or `/`, although the claim says the query is inserted for
every url. -/
theorem C7_skips_unhandled_urls :
    injectQuery "a".toList "direct".toList = "a".toList ∧
    injectQuery "a".toList "direct".toList ≠ "a?direct".toList := by
  decide

/-- C7 (amended): for every url starting with `.` or `/` that decomposes
into a `?`- and `#`-free pathname, an optional search part led by `?`, and
an optional hash part led by `#`, `injectQuery` inserts the query right
after the pathname, appends a pre-existing search with `&`, and preserves
the hash at the end; every url that starts with neither `.` nor `/` is
returned unchanged. -/
theorem C7_injectQuery_inserts (path search hash q url2 : Str)
    (hstart : (∃ t, path = '.' :: t) ∨ (∃ t, path = '/' :: t))
    (hpq : '?' ∉ path) (hph : '#' ∉ path)
    (hs : search = [] ∨
      ('#' ∉ search ∧ ∃ s, s ≠ [] ∧ search = '?' :: s))
    (hh : hash = [] ∨ ∃ h, h ≠ [] ∧ hash = '#' :: h) :
    injectQuery (path ++ search ++ hash) q =
      path ++ '?' :: q ++
        (if search.isEmpty then [] else '&' :: search.tail) ++ hash ∧
    (isPref ['.'] url2 = false → isPref ['/'] url2 = false →
      injectQuery url2 q = url2) := by
  constructor
  · have hnosearchhash : '#' ∉ search := by
      rcases hs with rfl | ⟨hns, _⟩
      · simp
      · exact hns
    have hstart' : (!(isPref ['.'] (path ++ search ++ hash)) &&
        !(isPref ['/'] (path ++ search ++ hash))) = false := by
      rcases hstart with ⟨t, rfl⟩ | ⟨t, rfl⟩ <;> simp [isPref]
    have hbeforeHash : takeUntil '#' (path ++ search ++ hash) =
        path ++ search := by
      rw [List.append_assoc, takeUntil_append '#' path _ hph,
        takeUntil_append '#' search _ hnosearchhash]
      rcases hh with rfl | ⟨h, hne, rfl⟩
      · simp [takeUntil]
      · simp [takeUntil_cons_self]
    have hpathname : takeUntil '?' (path ++ search) = path := by
      rw [takeUntil_append '?' path _ hpq]
      rcases hs with rfl | ⟨_, s, hne, rfl⟩
      · simp [takeUntil]
      · simp [takeUntil_cons_self]
    have hhashRaw : dropFromC '#' (path ++ search ++ hash) = hash := by
      rw [List.append_assoc, dropFromC_append '#' path _ hph,
        dropFromC_append '#' search _ hnosearchhash]
      rcases hh with rfl | ⟨h, hne, rfl⟩
      · rfl
      · simp [dropFromC_cons_self]
    have hsearchRaw : dropFromC '?' (path ++ search) = search := by
      rw [dropFromC_append '?' path _ hpq]
      rcases hs with rfl | ⟨_, s, hne, rfl⟩
      · rfl
      · simp [dropFromC_cons_self]
    rw [injectQuery, hstart']
    simp only [Bool.false_eq_true, if_false, urlSearchHash, hbeforeHash,
      hpathname, hhashRaw, hsearchRaw]
    rcases hs with rfl | ⟨hns, s, hsne, rfl⟩
    · rcases hh with rfl | ⟨h, hne, rfl⟩
      · simp
      · simp [hne]
    · rcases hh with rfl | ⟨h, hne, rfl⟩
      · simp [hsne]
      · simp [hsne, hne]
  · intro h1 h2
    simp [injectQuery, h1, h2]

/-- Closed witness for `C7_injectQuery_inserts`: a path with an existing
search and hash, plus an unhandled bare url. -/
theorem C7_injectQuery_inserts_witness :
    injectQuery ("/usr/vite".toList ++ "?a=1".toList ++ "#h".toList)
        "direct".toList =
      "/usr/vite".toList ++ '?' :: "direct".toList ++
        (if ("?a=1".toList : Str).isEmpty then []
         else '&' :: ("?a=1".toList : Str).tail) ++ "#h".toList ∧
    (isPref ['.'] "x".toList = false → isPref ['/'] "x".toList = false →
      injectQuery "x".toList "direct".toList = "x".toList) :=
  C7_injectQuery_inserts "/usr/vite".toList "?a=1".toList "#h".toList
    "direct".toList "x".toList
    (Or.inr ⟨"usr/vite".toList, by decide⟩)
    (by decide) (by decide)
    (Or.inr ⟨by decide, "a=1".toList, by decide, by decide⟩)
    (Or.inr ⟨"h".toList, by decide, by decide⟩)
